import Mathlib

/-!
# Verification of the GitHub internship scraper core

A shallow embedding of the line-level extraction and deduplication pipeline
of `internship_scraper.py` (the current revision of the script; `main.py` is
an earlier near-duplicate revision, modelled separately where a claim cites
it).  Strings are modelled as Lean `String` / `List Char` (Python strings are
sequences of code points).  Python's `s in t` substring test is modelled by
`subMatch`, `str.split(c)` by `splitOnChar`, `str.strip()` by `stripL`
(ASCII whitespace; all inputs of interest use plain spaces), and
`str.lower()` by `lowerL` (ASCII case folding, which covers every keyword
the scraper compares against).  Python's process-internal string `hash` is
modelled by the concrete deterministic 64-bit fold `pyHash`: within one
interpreter process Python's hash is a fixed deterministic function of the
string; only that determinism, and the fact that the hash reads the raw
(untrimmed) line, matter below.  Timestamp fields (`datetime.now()`:
`found_date`, and the values of the seen-postings mapping) are not part of
any claim and are omitted; the seen mapping is modelled by its key list.
-/

/-- Python whitespace test for `str.strip` (ASCII subset). -/
def isWS (c : Char) : Bool := c.isWhitespace

/-- Model of Python `str.strip()`: drop leading and trailing whitespace. -/
def stripL (l : List Char) : List Char :=
  ((l.dropWhile isWS).reverse.dropWhile isWS).reverse

/-- ASCII lowercase of one character, as Python `str.lower` acts on the
ASCII range (every keyword the scraper compares against is ASCII). -/
def lowerChar (c : Char) : Char :=
  if 65 ≤ c.toNat ∧ c.toNat ≤ 90 then Char.ofNat (c.toNat + 32) else c

/-- Model of Python `str.lower()`. -/
def lowerL (l : List Char) : List Char := l.map lowerChar

/-- `leadMatch pat l` holds when `pat` starts `l` (executable form). -/
def leadMatch : List Char → List Char → Bool
  | [], _ => true
  | _ :: _, [] => false
  | a :: as, b :: bs => a == b && leadMatch as bs

/-- Model of Python's `pat in s` substring test: `pat` occurs contiguously
inside `l`. -/
def subMatch (pat : List Char) : List Char → Bool
  | [] => leadMatch pat []
  | b :: bs => leadMatch pat (b :: bs) || subMatch pat bs

/-- Attach a character to the first block of a split result (helper for
`splitOnChar`). -/
def consHead (a : Char) : List (List Char) → List (List Char)
  | [] => [[a]]
  | s :: ss => (a :: s) :: ss

/-- Model of Python `str.split(sep)` for a one-character separator: split at
every occurrence, keeping empty pieces. -/
def splitOnChar (sep : Char) : List Char → List (List Char)
  | [] => [[]]
  | a :: rest =>
    if a == sep then [] :: splitOnChar sep rest
    else consHead a (splitOnChar sep rest)

/-- `l.takeWhile (· != c)`: the part of `l` before the first occurrence of
`c` — Python `s.split(c)[0]`, or a slice `s[start:s.find(c)]`. -/
def takeUntil (c : Char) (l : List Char) : List Char := l.takeWhile (· != c)

/-- The part of `l` after the first occurrence of `c` and before the next
occurrence of `c` — Python `s.split(c)[1]` when `c in s`. -/
def betweenSplits (c : Char) (l : List Char) : List Char :=
  takeUntil c ((l.dropWhile (· != c)).tail)

/-- The suffix of `l` starting at the first occurrence of `pat` — Python
`s[s.find(pat):]` when `pat in s`. -/
def suffixFrom (pat : List Char) : List Char → List Char
  | [] => []
  | a :: rest => if leadMatch pat (a :: rest) then a :: rest else suffixFrom pat rest

/-! ## The scraper model (from `src/internship_scraper.py`) -/

/-- The Canadian flag emoji tested by the classifier (source line 150): the
regional indicator symbols C and A. -/
def flagCA : List Char := [Char.ofNat 0x1F1E8, Char.ofNat 0x1F1E6]

/-- Model of the line classifier of `parse_internships` (source line 150):
`('canada' in line.lower() or FLAG in line) and ('http' in line or '[' in line)`. -/
def isCandidate (line : String) : Bool :=
  (subMatch "canada".data (lowerL line.data) || subMatch flagCA line.data)
  && (subMatch "http".data line.data || subMatch "[".data line.data)

/-- The pipe-delimited cells of a line (source line 84):
`[p.strip() for p in line.split('|') if p.strip()]`. -/
def cells (line : String) : List (List Char) :=
  (((splitOnChar '|' line.data).map stripL).filter (fun p => !p.isEmpty))

/-- Rejection substrings for a bracketed company candidate (source line 99). -/
def rejectWords : List (List Char) := ["apply".data, "link".data, "posting".data]

/-- Company loop of `extract_job_info` (source lines 95-101): first cell with
`[`, `]` and `http`; take the text between the first `[` and the following
`]`; accept when non-empty and free of the rejection words, else keep
scanning. -/
def companyOf : List (List Char) → String
  | [] => "Unknown"
  | p :: ps =>
    if subMatch "[".data p && subMatch "]".data p && subMatch "http".data p then
      let m := takeUntil ']' (betweenSplits '[' p)
      if !m.isEmpty && !(rejectWords.any (fun w => subMatch w (lowerL m))) then
        String.mk m
      else companyOf ps
    else companyOf ps

/-- Role keywords (source line 105). -/
def roleKeywords : List (List Char) :=
  ["intern".data, "engineer".data, "developer".data, "software".data,
   "swe".data, "co-op".data]

/-- The test of the role loop (source line 105). -/
def roleMatches (p : List Char) : Bool :=
  roleKeywords.any (fun k => subMatch k (lowerL p))

/-- Cell cleaning shared by the role and location loops (source lines 106
and 120): `part.replace('[','').replace(']','').split('(')[0].strip()`. -/
def cleanCell (p : List Char) : List Char :=
  stripL (takeUntil '(' (p.filter (fun c => c != '[' && c != ']')))

/-- Role loop of `extract_job_info` (source lines 104-107): first cell whose
lowercase form contains a role keyword, cleaned. -/
def roleOf : List (List Char) → String
  | [] => "Unknown"
  | p :: ps => if roleMatches p then String.mk (cleanCell p) else roleOf ps

/-- The location gazetteer (source lines 110-115, duplicate entry kept). -/
def canadianLocations : List (List Char) :=
  ["toronto".data, "vancouver".data, "montreal".data, "ottawa".data,
   "calgary".data, "edmonton".data, "winnipeg".data, "quebec".data,
   "hamilton".data, "kitchener".data, "waterloo".data, "london".data,
   "victoria".data, "halifax".data, "regina".data, "saskatoon".data,
   "ontario".data, "bc".data, "british columbia".data, "alberta".data,
   "quebec".data, "remote".data, "hybrid".data, "canada".data]

/-- Location loop of `extract_job_info` (source lines 116-123): first cell
whose lowercase form contains a gazetteer entry and whose cleaned form is
non-empty and shorter than 50 characters; on a rejected match the scan
continues (the `break` sits inside the inner `if`). -/
def locationOf : List (List Char) → String
  | [] => "Unknown"
  | p :: ps =>
    if canadianLocations.any (fun k => subMatch k (lowerL p)) then
      let loc := cleanCell p
      if !loc.isEmpty && loc.length < 50 then String.mk loc else locationOf ps
    else locationOf ps

/-- Month abbreviations of the date loop (source line 127, case-sensitive). -/
def months : List (List Char) :=
  ["Jan".data, "Feb".data, "Mar".data, "Apr".data, "May".data, "Jun".data,
   "Jul".data, "Aug".data, "Sep".data, "Oct".data, "Nov".data, "Dec".data]

/-- Date loop of `extract_job_info` (source lines 126-129): first cell
containing a month abbreviation, a `/` or a `-`; taken stripped. -/
def dateOf : List (List Char) → String
  | [] => "Unknown"
  | p :: ps =>
    if months.any (fun m => subMatch m p) || subMatch "/".data p
        || subMatch "-".data p then
      String.mk (stripL p)
    else dateOf ps

/-- Link extraction of `extract_job_info` (source lines 132-139): on the
original line, from the first `http` to the first following `)`, else to the
first following space, else to the end; stripped.  Empty when the line has
no `http`. -/
def linkOf (line : List Char) : String :=
  if subMatch "http".data line then
    let t := suffixFrom "http".data line
    let cut :=
      if subMatch ")".data t then takeUntil ')' t
      else if subMatch " ".data t then takeUntil ' ' t
      else t
    String.mk (stripL cut)
  else ""

/-- The structured fields produced by `extract_job_info` (source lines
86-92 give the defaults). -/
structure JobInfo where
  company : String
  role : String
  location : String
  date_posted : String
  link : String
  deriving Repr, DecidableEq

/-- Model of `extract_job_info` (source lines 81-141). -/
def extract_job_info (line : String) : JobInfo :=
  let parts := cells line
  { company := companyOf parts
    role := roleOf parts
    location := locationOf parts
    date_posted := dateOf parts
    link := linkOf line.data }

/-- Model of Python's per-process string hash: a fixed deterministic 64-bit
fold over the code points of the *raw* line (the source calls `hash(line)`
on the untrimmed line, source line 152).  Python's concrete values vary per
process via hash randomisation; every claim below depends only on the hash
being a deterministic function of the raw line within a run. -/
def pyHash (l : List Char) : Nat :=
  l.foldl (fun a c => (a * 31 + c.toNat) % (2 ^ 64)) 0

/-- Model of the posting identifier (source line 152):
`f"{repo_name}_{hash(line)}"`. -/
def postingId (repoName line : String) : String :=
  repoName ++ "_" ++ toString (pyHash line.data)

/-- A posting record as built by `parse_internships` (source lines 157-167;
the `found_date` timestamp is outside the embedding). -/
structure Posting where
  repo : String
  company : String
  role : String
  location : String
  date_posted : String
  link : String
  raw_content : String
  id : String
  deriving Repr, DecidableEq

/-- The record built for one candidate line (source lines 156-167). -/
def buildRecord (repoName line : String) : Posting :=
  let ji := extract_job_info line
  { repo := repoName
    company := ji.company
    role := ji.role
    location := ji.location
    date_posted := ji.date_posted
    link := ji.link
    raw_content := String.mk (stripL line.data)
    id := postingId repoName line }

/-- The loop body of `parse_internships` (source lines 148-168) over the
already-split lines, threading the seen-postings key set: a candidate line
whose id is not yet seen yields a record and marks its id seen. -/
def parseLines (repoName : String) : List String → List String → List Posting × List String
  | [], seen => ([], seen)
  | line :: rest, seen =>
    if isCandidate line then
      if postingId repoName line ∈ seen then parseLines repoName rest seen
      else
        let r := parseLines repoName rest (postingId repoName line :: seen)
        (buildRecord repoName line :: r.1, r.2)
    else parseLines repoName rest seen

/-- Model of Python `content.split('\n')` (source line 146). -/
def pyLines (content : String) : List String :=
  (splitOnChar '\n' content.data).map String.mk

/-- Model of `parse_internships` (source lines 143-170), returning the new
postings and the updated seen-set keys. -/
def parse_internships (content repoName : String) (seen : List String) :
    List Posting × List String :=
  parseLines repoName (pyLines content) seen

/-- Model of `scrape_all_repos` (source lines 172-194) with fetching
abstracted away: each pair is a source name with its fetched document text
(the commit check and fetch failures belong to the external collaborators;
a skipped or empty document contributes nothing, exactly as an absent pair
here).  The cache save at the end writes the threaded seen-set unchanged. -/
def scrape_all_repos : List (String × String) → List String → List Posting × List String
  | [], seen => ([], seen)
  | d :: rest, seen =>
    let r := parse_internships d.2 d.1 seen
    let r2 := scrape_all_repos rest r.2
    (r.1 ++ r2.1, r2.2)

/-- The observable states of the persisted cache file for `load_cache`:
absent, present but unparseable, or parsing to a seen mapping (modelled by
its key list). -/
inductive CacheState where
  | missing : CacheState
  | corrupt : CacheState
  | wellFormed : List String → CacheState
  deriving Repr, DecidableEq

/-- Model of `load_cache` of `internship_scraper.py` (source lines 32-40):
a missing file and any `json.load` failure both yield the empty mapping;
the function never propagates an error. -/
def load_cache : CacheState → List String
  | .missing => []
  | .corrupt => []
  | .wellFormed s => s

/-- Model of `load_cache` of the earlier revision `main.py` (lines 30-35):
no exception guard, so an unparseable file propagates the `json.load`
error (`none`). -/
def load_cache_main : CacheState → Option (List String)
  | .missing => some []
  | .corrupt => none
  | .wellFormed s => some s

/-- Outcome of the report-delivery collaborator (the SMTP send). -/
inductive Delivery where
  | ok : Delivery
  | fail : Delivery
  deriving Repr, DecidableEq

/-- Model of `send_email` (source lines 196-233): nothing is sent for an
empty batch; otherwise a delivery failure is printed and re-raised. -/
def send_email (postings : List Posting) (delivery : Delivery) : Except Unit Unit :=
  if postings.isEmpty then .ok ()
  else match delivery with
    | .ok => .ok ()
    | .fail => .error ()

/-- Model of `run` (source lines 235-259): scrape (which saves the cache),
email when the batch is non-empty, and a catch-all `except` that prints the
error and returns 0 (the source comment: allow the run to complete).
The first component is the invocation result (the function can only return;
it never re-raises), the second the saved seen-set. -/
def runScraper (docs : List (String × String)) (seen : List String)
    (delivery : Delivery) : Except Unit Nat × List String :=
  let r := scrape_all_repos docs seen
  match send_email r.1 delivery with
  | .ok _ => (.ok r.1.length, r.2)
  | .error _ => (.ok 0, r.2)

/-! ## Correctness of the string utilities -/

/-- `leadMatch` decides the prefix relation. -/
theorem leadMatch_iff : ∀ p l : List Char, leadMatch p l = true ↔ p <+: l
  | [], l => by simp [leadMatch]
  | a :: as, [] => by simp [leadMatch]
  | a :: as, b :: bs => by
    simp [leadMatch, Bool.and_eq_true, leadMatch_iff as bs, List.cons_prefix_cons]

/-- `subMatch` decides the substring (contiguous-occurrence) relation,
matching Python's `pat in s`. -/
theorem subMatch_iff (p : List Char) : ∀ l : List Char, subMatch p l = true ↔ p <:+: l
  | [] => by simp [subMatch, leadMatch_iff]
  | b :: bs => by
    simp [subMatch, Bool.or_eq_true, leadMatch_iff, subMatch_iff p bs,
      List.infix_cons_iff]

/-- A one-character substring test is membership. -/
theorem subMatch_singleton (c : Char) : ∀ l : List Char, subMatch [c] l = true ↔ c ∈ l
  | [] => by simp [subMatch, leadMatch]
  | b :: bs => by
    rw [List.mem_cons]
    simp only [subMatch, leadMatch, Bool.or_eq_true, Bool.and_eq_true, beq_iff_eq,
      subMatch_singleton c bs, and_true]

theorem subMatch_lbracket (l : List Char) : subMatch "[".data l = true ↔ '[' ∈ l := by
  rw [show "[".data = ['['] from rfl, subMatch_singleton]

/-- A one-character contiguous occurrence is membership. -/
theorem singleton_sub_mem (c : Char) (l : List Char) : [c] <:+: l ↔ c ∈ l := by
  rw [← subMatch_iff, subMatch_singleton]

/-- `dropWhile` returns nothing exactly when every element satisfies the
predicate. -/
theorem dropWhile_nil_iff (p : Char → Bool) :
    ∀ l : List Char, l.dropWhile p = [] ↔ ∀ c ∈ l, p c = true
  | [] => by simp
  | a :: l => by
    by_cases h : p a = true
    · simp [List.dropWhile, h, dropWhile_nil_iff p l]
    · simp [List.dropWhile, h]

/-- Elements surviving `dropWhile` are elements of the list. -/
theorem mem_of_mem_dropWhileL (p : Char → Bool) :
    ∀ l : List Char, ∀ c ∈ l.dropWhile p, c ∈ l
  | [], c, h => h
  | a :: l, c, h => by
    by_cases ha : p a = true
    · simp only [List.dropWhile, ha] at h
      exact List.mem_cons_of_mem a (mem_of_mem_dropWhileL p l c h)
    · simpa [List.dropWhile, ha] using h

/-- A stripped line is empty exactly when the line is all whitespace. -/
theorem stripL_nil_iff (l : List Char) : stripL l = [] ↔ ∀ c ∈ l, isWS c = true := by
  unfold stripL
  rw [List.reverse_eq_nil_iff, dropWhile_nil_iff]
  constructor
  · intro h c hc
    rcases List.mem_append.mp
        ((List.takeWhile_append_dropWhile isWS l) ▸ hc) with h1 | h1
    · exact List.mem_takeWhile_imp h1
    · exact h c (List.mem_reverse.mpr h1)
  · intro h c hc
    exact h c (mem_of_mem_dropWhileL isWS l c (List.mem_reverse.mp hc))

/-- `splitOnChar` always returns at least one block. -/
theorem splitOnChar_ne_nil (sep : Char) : ∀ l : List Char, splitOnChar sep l ≠ []
  | [] => by simp [splitOnChar]
  | a :: rest => by
    by_cases h : a == sep
    · simp [splitOnChar, h]
    · simp only [splitOnChar, h, Bool.false_eq_true, if_false]
      cases splitOnChar sep rest with
      | nil => simp [consHead]
      | cons s ss => simp [consHead]

/-- Every character of a list is either the separator or belongs to one of
the blocks of its split. -/
theorem mem_of_splitOnChar (sep : Char) :
    ∀ l : List Char, ∀ c ∈ l, c = sep ∨ ∃ s ∈ splitOnChar sep l, c ∈ s
  | [], c, h => absurd h (List.not_mem_nil c)
  | a :: rest, c, h => by
    by_cases hsep : a == sep
    · rcases List.mem_cons.mp h with rfl | hr
      · exact Or.inl (eq_of_beq hsep)
      · rcases mem_of_splitOnChar sep rest c hr with h1 | ⟨s, hs, hc⟩
        · exact Or.inl h1
        · exact Or.inr ⟨s, by simp [splitOnChar, hsep, List.mem_cons, hs], hc⟩
    · have hne := splitOnChar_ne_nil sep rest
      rcases hk : splitOnChar sep rest with _ | ⟨s0, ss⟩
      · exact absurd hk hne
      · have hres : splitOnChar sep (a :: rest) = (a :: s0) :: ss := by
          simp [splitOnChar, hsep, hk, consHead]
        rcases List.mem_cons.mp h with rfl | hr
        · exact Or.inr ⟨c :: s0, by simp [hres], List.mem_cons_self c s0⟩
        · rcases mem_of_splitOnChar sep rest c hr with h1 | ⟨s, hs, hc⟩
          · exact Or.inl h1
          · rcases List.mem_cons.mp (hk ▸ hs) with rfl | hss
            · exact Or.inr ⟨a :: s, by simp [hres], List.mem_cons_of_mem a hc⟩
            · exact Or.inr ⟨s, by simp [hres, List.mem_cons, hss], hc⟩

/-- When a line has no pipe-delimited cells, every one of its characters is
a pipe or whitespace. -/
theorem cells_nil_char (line : String) (h : cells line = []) :
    ∀ c ∈ line.data, c = '|' ∨ isWS c = true := by
  intro c hc
  have hall : ∀ x ∈ (splitOnChar '|' line.data).map stripL, x = [] := by
    intro x hx
    have := List.filter_eq_nil_iff.mp h x hx
    simpa [List.isEmpty_iff] using this
  rcases mem_of_splitOnChar '|' line.data c hc with h1 | ⟨s, hs, hcs⟩
  · exact Or.inl h1
  · have hstrip : stripL s = [] := hall (stripL s) (List.mem_map_of_mem stripL hs)
    exact Or.inr ((stripL_nil_iff s).mp hstrip c hcs)

/-- When a line has no pipe-delimited cells, it cannot contain `http` (the
substring has no pipe and no whitespace). -/
theorem cells_nil_no_http (line : String) (h : cells line = []) :
    subMatch "http".data line.data = false := by
  cases hb : subMatch "http".data line.data with
  | false => rfl
  | true =>
    have hinf : "http".data <:+: line.data := (subMatch_iff _ _).mp hb
    have hmem : 'h' ∈ line.data := hinf.subset (by decide)
    rcases cells_nil_char line h 'h' hmem with h1 | h1
    · exact absurd h1 (by decide)
    · exact absurd h1 (by decide)

/-! ## Pipeline lemmas -/

/-- The seen-set only grows across `parseLines`. -/
theorem parseLines_seen_mono (repoName : String) :
    ∀ (lines seen : List String), seen ⊆ (parseLines repoName lines seen).2
  | [], seen => by simp [parseLines]
  | line :: rest, seen => by
    by_cases hc : isCandidate line = true
    · by_cases hs : postingId repoName line ∈ seen
      · simpa [parseLines, hc, hs] using parseLines_seen_mono repoName rest seen
      · have h2 := parseLines_seen_mono repoName rest (postingId repoName line :: seen)
        simp only [parseLines, hc, if_true, hs, if_false]
        exact fun a ha => h2 (List.mem_cons_of_mem _ ha)
    · simpa [parseLines, hc] using parseLines_seen_mono repoName rest seen

/-- After `parseLines`, the id of every processed candidate line is seen. -/
theorem parseLines_covers (repoName : String) :
    ∀ (lines seen : List String) (l : String), l ∈ lines → isCandidate l = true →
      postingId repoName l ∈ (parseLines repoName lines seen).2
  | [], _, l, hl, _ => absurd hl (List.not_mem_nil l)
  | line :: rest, seen, l, hl, hcand => by
    rcases List.mem_cons.mp hl with rfl | hr
    · by_cases hs : postingId repoName l ∈ seen
      · simp only [parseLines, hcand, if_true, hs, if_false]
        exact parseLines_seen_mono repoName rest seen hs
      · simp only [parseLines, hcand, if_true, hs, if_false]
        exact parseLines_seen_mono repoName rest _ (List.mem_cons_self _ _)
    · by_cases hc : isCandidate line = true
      · by_cases hs : postingId repoName line ∈ seen
        · simpa [parseLines, hc, hs] using parseLines_covers repoName rest seen l hr hcand
        · simp only [parseLines, hc, if_true, hs, if_false]
          exact parseLines_covers repoName rest _ l hr hcand
      · simpa [parseLines, hc] using parseLines_covers repoName rest seen l hr hcand

/-- When every candidate line is already seen, `parseLines` reports nothing
and leaves the seen-set unchanged. -/
theorem parseLines_all_seen (repoName : String) :
    ∀ (lines seen : List String),
      (∀ l ∈ lines, isCandidate l = true → postingId repoName l ∈ seen) →
      parseLines repoName lines seen = ([], seen)
  | [], seen, _ => rfl
  | line :: rest, seen, h => by
    by_cases hc : isCandidate line = true
    · have hs : postingId repoName line ∈ seen := h line (List.mem_cons_self _ _) hc
      simp only [parseLines, hc, if_true, hs, if_false]
      exact parseLines_all_seen repoName rest seen
        (fun l hl => h l (List.mem_cons_of_mem _ hl))
    · simp only [parseLines, hc, if_false]
      exact parseLines_all_seen repoName rest seen
        (fun l hl => h l (List.mem_cons_of_mem _ hl))

/-- An empty `parseLines` batch leaves the seen-set unchanged. -/
theorem parseLines_nil_seen (repoName : String) :
    ∀ (lines seen : List String), (parseLines repoName lines seen).1 = [] →
      (parseLines repoName lines seen).2 = seen
  | [], seen, _ => rfl
  | line :: rest, seen, h => by
    by_cases hc : isCandidate line = true
    · by_cases hs : postingId repoName line ∈ seen
      · simp only [parseLines, hc, if_true, hs, if_false] at h ⊢
        exact parseLines_nil_seen repoName rest seen h
      · simp [parseLines, hc, hs] at h
    · simp only [parseLines, hc, if_false] at h ⊢
      exact parseLines_nil_seen repoName rest seen h

/-- A candidate line whose id is unseen forces a non-empty batch. -/
theorem parseLines_nonempty (repoName : String) :
    ∀ (lines seen : List String) (l : String), l ∈ lines → isCandidate l = true →
      postingId repoName l ∉ seen → (parseLines repoName lines seen).1 ≠ []
  | [], _, l, hl, _, _ => absurd hl (List.not_mem_nil l)
  | line :: rest, seen, l, hl, hcand, hunseen => by
    rcases List.mem_cons.mp hl with rfl | hr
    · simp [parseLines, hcand, hunseen]
    · by_cases hc : isCandidate line = true
      · by_cases hs : postingId repoName line ∈ seen
        · simp only [parseLines, hc, if_true, hs, if_false]
          exact parseLines_nonempty repoName rest seen l hr hcand hunseen
        · simp [parseLines, hc, hs]
      · simp only [parseLines, hc, if_false]
        exact parseLines_nonempty repoName rest seen l hr hcand hunseen

/-- The ids of a `parseLines` batch are pairwise distinct, all recorded in
the final seen-set, and none was seen before. -/
theorem parseLines_ids (repoName : String) :
    ∀ (lines seen : List String),
      ((parseLines repoName lines seen).1.map (fun p => p.id)).Nodup
      ∧ ∀ p ∈ (parseLines repoName lines seen).1,
          p.id ∈ (parseLines repoName lines seen).2 ∧ p.id ∉ seen
  | [], seen => by simp [parseLines]
  | line :: rest, seen => by
    by_cases hc : isCandidate line = true
    · by_cases hs : postingId repoName line ∈ seen
      · simpa [parseLines, hc, hs] using parseLines_ids repoName rest seen
      · have ih := parseLines_ids repoName rest (postingId repoName line :: seen)
        simp only [parseLines, hc, if_true, hs, if_false, List.map_cons]
        constructor
        · rw [List.nodup_cons]
          refine ⟨?_, ih.1⟩
          intro hmem
          rcases List.mem_map.mp hmem with ⟨p, hp, hpid⟩
          exact (ih.2 p hp).2 (by rw [hpid]; simp [buildRecord])
        · intro p hp
          rcases List.mem_cons.mp hp with rfl | hp2
          · refine ⟨?_, ?_⟩
            · have : postingId repoName line ∈ postingId repoName line :: seen :=
                List.mem_cons_self _ _
              exact parseLines_seen_mono repoName rest _ this
            · simpa [buildRecord] using hs
          · refine ⟨(ih.2 p hp2).1, ?_⟩
            intro hmem
            exact (ih.2 p hp2).2 (List.mem_cons_of_mem _ hmem)
    · simpa [parseLines, hc] using parseLines_ids repoName rest seen

/-- The seen-set only grows across `scrape_all_repos`. -/
theorem scrape_seen_mono :
    ∀ (docs : List (String × String)) (seen : List String),
      seen ⊆ (scrape_all_repos docs seen).2
  | [], seen => by simp [scrape_all_repos]
  | d :: rest, seen => by
    simp only [scrape_all_repos]
    exact (parseLines_seen_mono d.1 (pyLines d.2) seen).trans
      (scrape_seen_mono rest _)

/-- After a full scrape, the id of every candidate line of every supplied
document is in the final seen-set. -/
theorem scrape_covers :
    ∀ (docs : List (String × String)) (seen : List String) (r c l : String),
      (r, c) ∈ docs → l ∈ pyLines c → isCandidate l = true →
      postingId r l ∈ (scrape_all_repos docs seen).2
  | [], _, _, _, l, hd, _, _ => absurd hd (List.not_mem_nil _)
  | d :: rest, seen, r, c, l, hd, hl, hcand => by
    simp only [scrape_all_repos]
    rcases List.mem_cons.mp hd with rfl | hr
    · exact scrape_seen_mono rest _
        (parseLines_covers r (pyLines c) seen l hl hcand)
    · exact scrape_covers rest _ r c l hr hl hcand

/-- When every candidate line of every document is already seen, the scrape
reports nothing and leaves the seen-set unchanged. -/
theorem scrape_all_seen :
    ∀ (docs : List (String × String)) (seen : List String),
      (∀ r c l, (r, c) ∈ docs → l ∈ pyLines c → isCandidate l = true →
        postingId r l ∈ seen) →
      scrape_all_repos docs seen = ([], seen)
  | [], seen, _ => rfl
  | d :: rest, seen, h => by
    have h1 : parse_internships d.2 d.1 seen = ([], seen) :=
      parseLines_all_seen d.1 (pyLines d.2) seen
        (fun l hl hc => h d.1 d.2 l (by simp) hl hc)
    simp only [scrape_all_repos, h1]
    exact scrape_all_seen rest seen
      (fun r c l hd hl hc => h r c l (List.mem_cons_of_mem _ hd) hl hc)

/-- An empty scrape batch leaves the seen-set unchanged. -/
theorem scrape_nil_seen :
    ∀ (docs : List (String × String)) (seen : List String),
      (scrape_all_repos docs seen).1 = [] → (scrape_all_repos docs seen).2 = seen
  | [], _, _ => rfl
  | d :: rest, seen, h => by
    simp only [scrape_all_repos, List.append_eq_nil] at h ⊢
    have h1 : (parse_internships d.2 d.1 seen).2 = seen :=
      parseLines_nil_seen d.1 (pyLines d.2) seen h.1
    rw [h1] at h ⊢
    exact scrape_nil_seen rest seen h.2

/-- A candidate line of a supplied document whose id is unseen forces a
non-empty scrape batch. -/
theorem scrape_nonempty :
    ∀ (docs : List (String × String)) (seen : List String) (r c l : String),
      (r, c) ∈ docs → l ∈ pyLines c → isCandidate l = true →
      postingId r l ∉ seen → (scrape_all_repos docs seen).1 ≠ []
  | [], _, _, _, l, hd, _, _, _ => absurd hd (List.not_mem_nil _)
  | d :: rest, seen, r, c, l, hd, hl, hcand, hunseen => by
    simp only [scrape_all_repos, ne_eq, List.append_eq_nil, not_and]
    rcases List.mem_cons.mp hd with rfl | hr
    · intro h1
      exact absurd h1 (parseLines_nonempty r (pyLines c) seen l hl hcand hunseen)
    · intro h1
      have hseen : (parse_internships d.2 d.1 seen).2 = seen :=
        parseLines_nil_seen d.1 (pyLines d.2) seen h1
      rw [hseen]
      exact scrape_nonempty rest seen r c l hr hl hcand hunseen

/-- The ids of a scrape batch are pairwise distinct, all recorded in the
final seen-set, and none was seen before the run. -/
theorem scrape_ids :
    ∀ (docs : List (String × String)) (seen : List String),
      ((scrape_all_repos docs seen).1.map (fun p => p.id)).Nodup
      ∧ ∀ p ∈ (scrape_all_repos docs seen).1,
          p.id ∈ (scrape_all_repos docs seen).2 ∧ p.id ∉ seen
  | [], seen => by simp [scrape_all_repos]
  | d :: rest, seen => by
    have h1 := parseLines_ids d.1 (pyLines d.2) seen
    have h2 := scrape_ids rest (parse_internships d.2 d.1 seen).2
    simp only [scrape_all_repos, List.map_append]
    constructor
    · refine h1.1.append h2.1 ?_
      intro x hx1 hx2
      rcases List.mem_map.mp hx1 with ⟨p, hp, rfl⟩
      rcases List.mem_map.mp hx2 with ⟨q, hq, hqid⟩
      exact (h2.2 q hq).2 (hqid ▸ (h1.2 p hp).1)
    · intro p hp
      rcases List.mem_append.mp hp with hp1 | hp2
      · refine ⟨scrape_seen_mono rest _ (h1.2 p hp1).1, (h1.2 p hp1).2⟩
      · refine ⟨(h2.2 p hp2).1, ?_⟩
        intro hmem
        exact (h2.2 p hp2).2
          (parseLines_seen_mono d.1 (pyLines d.2) seen hmem)

/-- `roleOf` takes the first keyword-matching cell, cleaned. -/
theorem roleOf_first :
    ∀ (ps : List (List Char)) (p : List Char),
      ps.find? roleMatches = some p → roleOf ps = String.mk (cleanCell p)
  | [], p, h => by simp [List.find?] at h
  | q :: ps, p, h => by
    by_cases hq : roleMatches q = true
    · simp only [List.find?, hq] at h
      cases h
      simp [roleOf, hq]
    · simp only [List.find?, hq] at h
      rw [show roleOf (q :: ps) = roleOf ps by simp [roleOf, hq]]
      exact roleOf_first ps p (by simpa using h)

/-! ## Claim theorems -/

/-- C1 (counterexample): the posting id is not a function of the trimmed
content (`rawContent`).  The two lines `"x "` and `" x"` from the same
source have identical trimmed content but distinct ids, because the source
hashes the raw, untrimmed line (`hash(line)` at source line 152). -/
theorem postingId_trimmed_content_counterexample :
    String.mk (stripL "x ".data) = String.mk (stripL " x".data)
    ∧ postingId "repoA" "x " ≠ postingId "repoA" " x" := by decide

/-- C1 (amended): the posting id is a deterministic function of the pair
(source name, raw line text): equal inputs give equal ids, and distinct
source names paired with byte-identical line text give distinct ids (the
source name prefixes the id). -/
theorem postingId_source_disambiguation :
    ∀ s1 s2 line1 line2 : String,
      (s1 = s2 → line1 = line2 → postingId s1 line1 = postingId s2 line2)
      ∧ (s1 ≠ s2 → line1 = line2 → postingId s1 line1 ≠ postingId s2 line2) := by
  intro s1 s2 l1 l2
  constructor
  · rintro rfl rfl; rfl
  · rintro hne rfl heq
    apply hne
    have hd := congrArg String.data heq
    simp only [postingId, String.data_append, List.append_assoc] at hd
    exact String.ext (List.append_cancel_right hd)

/-- C1 (witness): the amended theorem applied at the concrete sources
`"repoA"`, `"repoB"` and the line `"| x canada |"`. -/
theorem postingId_source_disambiguation_witness :
    postingId "repoA" "| x canada |" ≠ postingId "repoB" "| x canada |" :=
  (postingId_source_disambiguation "repoA" "repoB" _ _).2 (by decide) rfl

/-- C2 (counterexample): a first run over a document with no candidate line
yields an empty batch, so the claim's unconditional "non-empty result on
the first run" fails. -/
theorem dedup_first_run_can_be_empty :
    (scrape_all_repos [("repoA", "plain prose, no postings here")] []).1 = []
    ∧ (scrape_all_repos [("repoA", "plain prose, no postings here")]
        (scrape_all_repos [("repoA", "plain prose, no postings here")] []).2).1
        = [] := by decide

/-- C2 (amended): with the seen-set persisted between two runs over
identical documents, the second run always yields an empty batch; the first
run yields a non-empty batch provided some supplied document contains a
candidate line whose id is not in the initial seen-set. -/
theorem dedup_convergence_amended (docs : List (String × String)) (seen0 : List String) :
    (scrape_all_repos docs (scrape_all_repos docs seen0).2).1 = []
    ∧ ((∃ r c l, (r, c) ∈ docs ∧ l ∈ pyLines c ∧ isCandidate l = true
          ∧ postingId r l ∉ seen0) → (scrape_all_repos docs seen0).1 ≠ []) := by
  constructor
  · have h := scrape_all_seen docs (scrape_all_repos docs seen0).2
      (fun r c l hd hl hc => scrape_covers docs seen0 r c l hd hl hc)
    rw [h]
  · rintro ⟨r, c, l, hd, hl, hc, hn⟩
    exact scrape_nonempty docs seen0 r c l hd hl hc hn

/-- C2 (witness): the amended theorem applied to one concrete document with
one candidate line and an empty initial seen-set: the first run reports it,
the rerun reports nothing. -/
theorem dedup_convergence_witness :
    (scrape_all_repos [("repoA", "| [Acme](http://acme.com/apply) | canada |")] []).1 ≠ []
    ∧ (scrape_all_repos [("repoA", "| [Acme](http://acme.com/apply) | canada |")]
        (scrape_all_repos
          [("repoA", "| [Acme](http://acme.com/apply) | canada |")] []).2).1 = [] :=
  ⟨(dedup_convergence_amended [("repoA", "| [Acme](http://acme.com/apply) | canada |")] []).2
      ⟨"repoA", "| [Acme](http://acme.com/apply) | canada |",
        "| [Acme](http://acme.com/apply) | canada |",
        List.mem_cons_self _ _, by decide, by decide, List.not_mem_nil _⟩,
   (dedup_convergence_amended [("repoA", "| [Acme](http://acme.com/apply) | canada |")] []).1⟩

/-- The end-to-end scenario document of the spec (§8). -/
def scenarioDoc : String :=
  "| [Acme](http://acme.com/apply) | SWE Intern | Toronto, Canada | Jan 5 |\n| prose line unrelated |"

/-- C3 (counterexample): on the spec's end-to-end scenario the single
record's `date_posted` is the first cell `"[Acme](http://acme.com/apply)"`
(its URL contains `/`, which satisfies the date heuristic of source line
127 before `"Jan 5"` is reached), not `"Jan 5"` as claimed. -/
theorem end_to_end_date_posted_counterexample :
    ((parse_internships scenarioDoc "repoA" []).1.map (fun r => r.date_posted))
      = ["[Acme](http://acme.com/apply)"]
    ∧ ("[Acme](http://acme.com/apply)" : String) ≠ "Jan 5" := by decide

/-- C3 (amended): the scenario yields exactly one record, with
`company = "Acme"`, `role = "SWE Intern"`, `location = "Toronto, Canada"`
(which contains `"Toronto"`), `link = "http://acme.com/apply"`, raw content
the trimmed table line — and `date_posted` equal to the first cell
`"[Acme](http://acme.com/apply)"` rather than `"Jan 5"`; the prose line is
excluded by the classifier. -/
theorem end_to_end_scenario_amended :
    ((parse_internships scenarioDoc "repoA" []).1.map
        (fun r => (r.repo, r.company, r.role)))
      = [("repoA", "Acme", "SWE Intern")]
    ∧ ((parse_internships scenarioDoc "repoA" []).1.map
        (fun r => (r.location, r.date_posted, r.link, r.raw_content)))
      = [("Toronto, Canada", "[Acme](http://acme.com/apply)",
          "http://acme.com/apply",
          "| [Acme](http://acme.com/apply) | SWE Intern | Toronto, Canada | Jan 5 |")]
    ∧ subMatch "Toronto".data "Toronto, Canada".data = true
    ∧ isCandidate "| prose line unrelated |" = false := by decide

/-- C4: the classifier is exactly the conjunction of a region marker (the
keyword `canada` case-insensitively, or the flag emoji) and a table-row
marker (the substring `http`, or a `[` character); in particular a line
with no region marker is never a candidate. -/
theorem isCandidate_characterization (line : String) :
    (isCandidate line = true ↔
      (("canada".data <:+: lowerL line.data ∨ flagCA <:+: line.data)
        ∧ ("http".data <:+: line.data ∨ '[' ∈ line.data)))
    ∧ (¬ "canada".data <:+: lowerL line.data → ¬ flagCA <:+: line.data →
        isCandidate line = false) := by
  have hiff : isCandidate line = true ↔
      (("canada".data <:+: lowerL line.data ∨ flagCA <:+: line.data)
        ∧ ("http".data <:+: line.data ∨ '[' ∈ line.data)) := by
    simp [isCandidate, Bool.and_eq_true, Bool.or_eq_true, subMatch_iff,
      singleton_sub_mem]
  refine ⟨hiff, ?_⟩
  intro h1 h2
  cases hEq : isCandidate line with
  | false => rfl
  | true =>
    rcases (hiff.mp hEq).1 with h | h
    · exact absurd h h1
    · exact absurd h h2

/-- C4 (witness): the characterization applied to the concrete line
`"| prose line unrelated |"`, which has no region marker and is rejected. -/
theorem isCandidate_characterization_witness :
    isCandidate "| prose line unrelated |" = false :=
  (isCandidate_characterization "| prose line unrelated |").2
    (mt (subMatch_iff _ _).mpr (by decide))
    (mt (subMatch_iff _ _).mpr (by decide))

/-- C5: `load_cache` never fails: a missing file and an unparseable file
both yield the empty seen-set, and a well-formed file yields its content. -/
theorem load_cache_total_on_failure (st : CacheState) :
    (st = .missing ∨ st = .corrupt → load_cache st = [])
    ∧ (∀ s, st = .wellFormed s → load_cache st = s) := by
  constructor
  · rintro (rfl | rfl) <;> rfl
  · rintro s rfl; rfl

/-- C5 (witness): the theorem applied to the corrupt cache state. -/
theorem load_cache_total_on_failure_witness : load_cache .corrupt = [] :=
  (load_cache_total_on_failure .corrupt).1 (Or.inr rfl)

/-- C6 (counterexample): a run that finds a posting but whose delivery
fails still returns normally with the value 0 — the invocation reports no
failure (the `except` of `run`, source lines 254-259, swallows the
re-raised delivery error). -/
theorem delivery_failure_swallowed_counterexample :
    (scrape_all_repos [("repoA", "| [Tilt](http://tilt.dev/jobs) | Intern | canada |")] []).1 ≠ []
    ∧ (runScraper [("repoA", "| [Tilt](http://tilt.dev/jobs) | Intern | canada |")] []
        Delivery.fail).1 = Except.ok 0 := ⟨by decide, rfl⟩

/-- C6 (amended): on delivery failure the run never surfaces an error: it
always returns normally with 0 (indistinguishable from a run that found
nothing), and the seen-set saved by the scrape is kept as updated, so the
undelivered postings are already marked seen. -/
theorem delivery_failure_amended (docs : List (String × String)) (seen : List String) :
    (runScraper docs seen Delivery.fail).1 = Except.ok 0
    ∧ (runScraper docs seen Delivery.fail).2 = (scrape_all_repos docs seen).2 := by
  unfold runScraper send_email
  by_cases h : (scrape_all_repos docs seen).1.isEmpty
  · have hlen : (scrape_all_repos docs seen).1.length = 0 := by
      simpa [List.isEmpty_iff, List.length_eq_zero] using h
    simp [h, hlen]
  · simp [h]

/-- C7: the seen-set grows monotonically: both the per-document parse loop
and the whole scrape (which then saves the set unchanged) only add ids,
never remove one. -/
theorem seen_set_monotone :
    (∀ repoName lines seen, seen ⊆ (parseLines repoName lines seen).2)
    ∧ ∀ (docs : List (String × String)) (seen : List String),
        seen ⊆ (scrape_all_repos docs seen).2 :=
  ⟨parseLines_seen_mono, scrape_seen_mono⟩

/-- C7 (witness): the theorem applied to one concrete run: an id present
before the run is still present after it. -/
theorem seen_set_monotone_witness :
    "olw" ∈ (scrape_all_repos [("repoA", "| canada [x](http://a) |")] ["olw"]).2 :=
  seen_set_monotone.2 [("repoA", "| canada [x](http://a) |")] ["olw"]
    (List.mem_cons_self _ _)

/-- C9: within a single run the output batch never contains two records
with the same id; concretely, a candidate line occurring twice in one
document produces exactly one record (its id enters the seen-set at the
first occurrence). -/
theorem batch_ids_nodup (docs : List (String × String)) (seen : List String) :
    ((scrape_all_repos docs seen).1.map (fun p => p.id)).Nodup
    ∧ (parse_internships "canada [x](http://a)\ncanada [x](http://a)" "repoA" []).1.length
        = 1 :=
  ⟨(scrape_ids docs seen).1, by decide⟩

/-- C10: when the first role-keyword-matching cell is `p`, the extracted
role is `p` with every `[` and `]` removed, truncated before the first `(`
and trimmed; if `p` begins with `(`, the role is the empty string, not the
default `"Unknown"`. -/
theorem role_cleaning_spec (line : String) (p : List Char)
    (h : (cells line).find? roleMatches = some p) :
    (extract_job_info line).role
      = String.mk (stripL (takeUntil '(' (p.filter (fun c => c != '[' && c != ']'))))
    ∧ (∀ rest, p = '(' :: rest → (extract_job_info line).role = "") := by
  have h1 : (extract_job_info line).role = String.mk (cleanCell p) := by
    simpa [extract_job_info] using roleOf_first (cells line) p h
  refine ⟨h1, ?_⟩
  rintro rest rfl
  rw [h1]
  have hfilter : ('(' :: rest).filter (fun c => c != '[' && c != ']')
      = '(' :: rest.filter (fun c => c != '[' && c != ']') := by
    simp [List.filter_cons]
  have hclean : cleanCell ('(' :: rest) = [] := by
    simp [cleanCell, hfilter, takeUntil, List.takeWhile_cons, stripL]
  rw [hclean]

/-- C10 (witness): the theorem applied to the line `"(software intern)"`,
whose only cell matches the keyword `intern` and begins with `(`: the
extracted role is empty. -/
theorem role_cleaning_witness : (extract_job_info "(software intern)").role = "" :=
  (role_cleaning_spec "(software intern)" "(software intern)".data (by decide)).2
    "software intern)".data (by decide)

/-- C8: a line with no pipe-delimited cells at all yields every structured
field at its default (`"Unknown"` for company, role, location and date, the
empty string for link — such a line cannot contain `http`), and the record
built for it carries the trimmed input line as `raw_content`. -/
theorem extraction_defaults (line : String) (h : cells line = []) :
    extract_job_info line
      = { company := "Unknown", role := "Unknown", location := "Unknown",
          date_posted := "Unknown", link := "" }
    ∧ ∀ repoName, (buildRecord repoName line).raw_content
        = String.mk (stripL line.data) := by
  constructor
  · have hlink : linkOf line.data = "" := by
      simp [linkOf, cells_nil_no_http line h]
    simp [extract_job_info, h, hlink, companyOf, roleOf, locationOf, dateOf]
  · intro repoName
    rfl

/-- C8 (witness): the theorem applied to the concrete line `" | | "`, whose
split produces no non-empty cell. -/
theorem extraction_defaults_witness :
    extract_job_info " | | "
      = { company := "Unknown", role := "Unknown", location := "Unknown",
          date_posted := "Unknown", link := "" }
    ∧ (buildRecord "repoA" " | | ").raw_content = String.mk (stripL " | | ".data) :=
  ⟨(extraction_defaults " | | " (by decide)).1,
   (extraction_defaults " | | " (by decide)).2 "repoA"⟩
